import Mathlib

/-!
Verification of the DL_MIMIC training/evaluation pipeline (src/main.py, src/loader.py).

The development shallowly embeds the parts of the program the claims are about:
the hierarchical collator, the prediction thresholding, the validate/test loop,
the metrics-table writer, the epoch loop with its checkpoint policy, the dataset
adapter, and the startup model dispatch.  Machine floats are modelled as
rationals; per-batch losses (computed by the external BCEWithLogitsLoss) are
abstracted as a function parameter; file writes are modelled as effect traces.
-/

/-- A note is an ordered list of integer token ids (main.py documents of collate). -/
abbrev Note := List Nat

/-- A document is an ordered list of notes. -/
abbrev Document := List Note

/-- A label row: 8 binary flags stored as floats, modelled as rationals. -/
abbrev LabelRow := Fin 8 → ℚ

/-!  ## Hierarchical collator (main.py, collate, lines 67-87)

`rnn.pad_sequence` pads every sequence of a batch to the longest one with 0,
`batch_first=True`; `np.array(X)` only yields a two-dimensional array (so that
`batch_size, note_size = X.shape` succeeds) when every document of the batch
has the same number of note cells, otherwise the unpacking raises.  The
embedding returns `none` in exactly the situations where the Python raises. -/

/-- Pad a token list on the right with the padding id 0 up to width `w`
(the row of `rnn.pad_sequence(..., batch_first=True)` for one note). -/
def padTo (w : Nat) (xs : List Nat) : List Nat :=
  xs ++ List.replicate (w - xs.length) 0

/-- The longest word count among the notes sitting at note-position `j`
across the documents of a batch (the width `pad_sequence` pads to). -/
def maxWordsAt (docs : List Document) (j : Nat) : Nat :=
  (docs.map (fun doc => (doc.getD j []).length)).foldl max 0

/-- Embedding of `collate(batch)` from main.py.  `zip(*batch)` fails on an
empty batch and `batch_size, note_size = X.shape` fails when the documents
do not all have the same number of note cells; both are modelled as `none`. -/
def collate (batch : List (Document × LabelRow)) :
    Option (List (List (List Nat)) × List (List Nat) × List LabelRow) :=
  match batch.map Prod.fst with
  | [] => none
  | d :: ds =>
    if (d :: ds).all (fun x => x.length = d.length) then
      some ((List.range d.length).map (fun j =>
              (d :: ds).map (fun doc => padTo (maxWordsAt (d :: ds) j) (doc.getD j []))),
            (d :: ds).map (fun doc => (List.range d.length).map
              (fun j => (doc.getD j []).length)),
            batch.map Prod.snd)
    else none

/-!  ## Prediction thresholding (main.py lines 177-179 and 234-235)

Both `train` and `validate` build predictions with
`pred = torch.zeros(out.shape); pred[out > 0.5] = 1.0`
where `out` is the raw logit tensor of the network (the sigmoid lives only
inside `nn.BCEWithLogitsLoss`; it is never applied to `out` here). -/

/-- The program's thresholding: a flag is predicted 1 exactly when the raw
logit exceeds 0.5. -/
def predOf (out : List LabelRow) : List LabelRow :=
  out.map (fun row i => if row i > 1/2 then 1 else 0)

/-- Modelled from the spec: thresholding of logits at a decision boundary of
0 in logit-space (equivalently 0.5 in probability space), written to compare
with the program's `predOf`. -/
def predThresholdZeroSpec (out : List LabelRow) : List LabelRow :=
  out.map (fun row i => if row i > 0 then 1 else 0)

/-!  ## Per-class precision / recall / F1 (sklearn `precision_recall_fscore_support`)

For the multilabel indicator matrices the library computes, per class,
precision = TP/(TP+FP), recall = TP/(TP+FN), F1 = 2PR/(P+R), each taken as 0
when its denominator is 0 — which matches rational division by zero. -/

/-- True positives of class `i` between a label matrix and a prediction matrix. -/
def countTP (y pred : List LabelRow) (i : Fin 8) : Nat :=
  ((y.zip pred).filter (fun q => q.1 i = 1 ∧ q.2 i = 1)).length

/-- False positives of class `i`. -/
def countFP (y pred : List LabelRow) (i : Fin 8) : Nat :=
  ((y.zip pred).filter (fun q => ¬ q.1 i = 1 ∧ q.2 i = 1)).length

/-- False negatives of class `i`. -/
def countFN (y pred : List LabelRow) (i : Fin 8) : Nat :=
  ((y.zip pred).filter (fun q => q.1 i = 1 ∧ ¬ q.2 i = 1)).length

/-- Per-class precision. -/
def precAt (y pred : List LabelRow) (i : Fin 8) : ℚ :=
  (countTP y pred i : ℚ) / ((countTP y pred i : ℚ) + (countFP y pred i : ℚ))

/-- Per-class recall. -/
def recAt (y pred : List LabelRow) (i : Fin 8) : ℚ :=
  (countTP y pred i : ℚ) / ((countTP y pred i : ℚ) + (countFN y pred i : ℚ))

/-- Per-class F1. -/
def f1At (y pred : List LabelRow) (i : Fin 8) : ℚ :=
  2 * precAt y pred i * recAt y pred i / (precAt y pred i + recAt y pred i)

/-- Number of label flags on which two matrices agree
(`(pred == y).sum().item()`). -/
def countCorrect (pred y : List LabelRow) : Nat :=
  ((pred.zip y).map
    (fun q => (Finset.univ.filter (fun i : Fin 8 => q.1 i = q.2 i)).card)).sum

/-!  ## The validate / test pass (main.py, validate, lines 218-246) -/

/-- One batch as the loader yields it to `validate`: the network's raw logits
for the batch and the label matrix (both batch_size × 8). -/
structure ValBatch where
  out : List LabelRow
  y : List LabelRow

/-- The loop state of `validate`: running loss, running flag totals, the
accumulated prediction rows, and the `y`/`pred` variables, which after the
loop still hold the values of the last iteration. -/
structure VState where
  runningLoss : ℚ
  totalPredictions : Nat
  correctPredictions : Nat
  preds : List LabelRow
  lastY : List LabelRow
  lastPred : List LabelRow

/-- The state at the top of `validate`, before the loop. -/
def vInit : VState :=
  { runningLoss := 0, totalPredictions := 0, correctPredictions := 0,
    preds := [], lastY := [], lastPred := [] }

/-- One iteration of the `validate` loop.  `lossOf` abstracts
`criterion(out, y).item()` (BCEWithLogitsLoss, external). -/
def vstep (lossOf : List LabelRow → List LabelRow → ℚ) (s : VState) (b : ValBatch) :
    VState :=
  let pred := predOf b.out
  { runningLoss := s.runningLoss + lossOf b.out b.y
  , totalPredictions := s.totalPredictions + b.y.length * 8
  , correctPredictions := s.correctPredictions + countCorrect pred b.y
  , preds := s.preds ++ pred
  , lastY := b.y
  , lastPred := pred }

/-- Folding the `validate` loop over the loader. -/
def vFold (lossOf : List LabelRow → List LabelRow → ℚ) (loader : List ValBatch) :
    VState :=
  loader.foldl (vstep lossOf) vInit

/-- What `validate` returns: loss, accuracy, the three per-class metric
vectors and the stacked prediction rows. -/
structure VOut where
  loss : ℚ
  acc : ℚ
  p : Fin 8 → ℚ
  r : Fin 8 → ℚ
  f1 : Fin 8 → ℚ
  preds : List LabelRow

/-- The tail of `validate` after the loop: `running_loss /= len(val_loader)`
divides by the length of the ambient validation loader `valLen`, whatever
loader was iterated; accuracy divides the running correct count by the
running flag total; p/r/f1 are computed from the `y`/`pred` variables left
over from the last iteration. -/
def vOut (valLen : Nat) (s : VState) : VOut :=
  { loss := s.runningLoss / (valLen : ℚ)
  , acc := (s.correctPredictions : ℚ) / (s.totalPredictions : ℚ)
  , p := precAt s.lastY s.lastPred
  , r := recAt s.lastY s.lastPred
  , f1 := f1At s.lastY s.lastPred
  , preds := s.preds }

/-- Embedding of `validate(loader)`.  On an empty loader the Python body
fails (the accuracy divides 0 by 0 on floats only after `y` raises a
NameError), modelled as `none`. -/
def validateRun (lossOf : List LabelRow → List LabelRow → ℚ) (valLen : Nat)
    (loader : List ValBatch) : Option VOut :=
  if loader.isEmpty then none
  else some (vOut valLen (vFold lossOf loader))

/-- Total number of correctly predicted label flags over a loader. -/
def totalCorrect (loader : List ValBatch) : Nat :=
  (loader.map (fun b => countCorrect (predOf b.out) b.y)).sum

/-- Total number of samples over a loader. -/
def totalSamples (loader : List ValBatch) : Nat :=
  (loader.map (fun b => b.y.length)).sum

/-- Sum of the abstract per-batch losses over a loader. -/
def sumLoss (lossOf : List LabelRow → List LabelRow → ℚ)
    (loader : List ValBatch) : ℚ :=
  (loader.map (fun b => lossOf b.out b.y)).sum

/-!  ## The metrics table writer (main.py, evaluate, lines 249-256)

`metrics.loc["micro_avg"] = np.average(np.array([p, r, f1]) * dataset.proportion, axis=1)`
multiplies each metric vector elementwise by the class-proportion vector and
then takes the unweighted mean over the 8 classes (`np.average` without
weights), and `metrics.loc["macro_avg"] = np.average([p, r, f1], axis=1)` is
the plain unweighted mean; `metrics.round(3)` rounds every cell to 3 decimal
places with round-half-to-even. -/

/-- Round a rational to the nearest integer, ties to even (numpy / pandas
rounding). -/
def roundHalfEven (q : ℚ) : ℤ :=
  if q - (⌊q⌋ : ℚ) < 1/2 then ⌊q⌋
  else if q - (⌊q⌋ : ℚ) > 1/2 then ⌊q⌋ + 1
  else if ⌊q⌋ % 2 = 0 then ⌊q⌋ else ⌊q⌋ + 1

/-- Round to 3 decimal places (`metrics.round(3)`). -/
def round3 (q : ℚ) : ℚ :=
  (roundHalfEven (q * 1000) : ℚ) / 1000

/-- One row of the metrics CSV: precision, recall, f1. -/
structure MetricsRow where
  p : ℚ
  r : ℚ
  f1 : ℚ
deriving DecidableEq

/-- The metrics CSV: one row per class plus the micro_avg and macro_avg rows. -/
structure MetricsTable where
  perClass : Fin 8 → MetricsRow
  microAvg : MetricsRow
  macroAvg : MetricsRow

/-- Embedding of `evaluate(p, r, f1, dataset)` (the table it writes to
`result/<stamp>_<name>.csv`), with `prop` the dataset's class-proportion
vector. -/
def evaluateTable (p r f1 prop : Fin 8 → ℚ) : MetricsTable :=
  { perClass := fun i => ⟨round3 (p i), round3 (r i), round3 (f1 i)⟩
  , microAvg := ⟨round3 ((∑ i, p i * prop i) / 8),
                 round3 ((∑ i, r i * prop i) / 8),
                 round3 ((∑ i, f1 i * prop i) / 8)⟩
  , macroAvg := ⟨round3 ((∑ i, p i) / 8),
                 round3 ((∑ i, r i) / 8),
                 round3 ((∑ i, f1 i) / 8)⟩ }

/-- Modelled from the spec: the micro average as the spec words it, the sum
over the 8 classes of the per-class metric weighted by the class's share of
total positive instances; written to compare with `evaluateTable`. -/
def microAvgSpec (m prop : Fin 8 → ℚ) : ℚ :=
  ∑ i, m i * prop i

/-!  ## The epoch loop (main.py, run_epochs, lines 259-313)

The numeric results of each epoch (train loss, validation loss, the
validation per-class F1 vector from `validate`) are abstracted as functions
of the epoch index; the disk writes are modelled as an effect trace. -/

/-- The run configuration flags `run_epochs` consults.  `resume` carries the
epoch index and the two loss histories read from the checkpoint. -/
structure RunArgs where
  predict : Bool
  debug : Bool
  resume : Option (Nat × List ℚ × List ℚ)
  epochMax : Nat

/-- A disk write performed by `run_epochs`: the checkpoint (with its epoch
index and the two loss histories), the train/validation metrics CSVs, the
validation prediction dump, and the final test pass with its metrics CSV. -/
inductive RunEffect where
  | checkpointWrite (e : Nat) (trainLosses valLosses : List ℚ)
  | trainMetricsWrite (e : Nat)
  | valMetricsWrite (e : Nat)
  | predDump (e : Nat)
  | testEvalRun
  | testMetricsWrite
deriving DecidableEq

/-- The loop state of `run_epochs`: the best validation macro-F1 so far, the
two loss histories and the effects performed so far. -/
structure RunState where
  best : ℚ
  tl : List ℚ
  vl : List ℚ
  effs : List RunEffect

/-- The validation macro-F1 of epoch `e`: `np.average(val_f1)`, the
unweighted mean of the 8 per-class F1 values `validate` returned. -/
def macroOf (valF1 : Nat → Fin 8 → ℚ) (e : Nat) : ℚ :=
  (∑ i, valF1 e i) / 8

/-- One iteration of the epoch loop: append the epoch's losses to the
histories, then save the checkpoint, both metrics CSVs and the prediction
dump exactly when not in debug mode and the epoch's validation macro-F1
strictly exceeds `best`. -/
def stepEpoch (a : RunArgs) (trainLossF valLossF : Nat → ℚ)
    (valF1 : Nat → Fin 8 → ℚ) (s : RunState) (e : Nat) : RunState :=
  let tl := s.tl ++ [trainLossF e]
  let vl := s.vl ++ [valLossF e]
  let f1 := macroOf valF1 e
  if ¬ a.debug ∧ f1 > s.best then
    { best := f1, tl := tl, vl := vl
    , effs := s.effs ++ [RunEffect.checkpointWrite e tl vl,
                         RunEffect.trainMetricsWrite e,
                         RunEffect.valMetricsWrite e,
                         RunEffect.predDump e] }
  else { best := s.best, tl := tl, vl := vl, effs := s.effs }

/-- The first epoch of the run: 0, or the resumed checkpoint's epoch + 1. -/
def startEpoch (a : RunArgs) : Nat :=
  match a.resume with
  | some (e, _, _) => e + 1
  | none => 0

/-- The epoch bound: `args.epoch`, forced to 1 in debug mode. -/
def epochBound (a : RunArgs) : Nat :=
  if a.debug then 1 else a.epochMax

/-- The epochs the loop runs over: `range(epoch, args.epoch)`. -/
def epochList (a : RunArgs) : List Nat :=
  List.range' (startEpoch a) (epochBound a - startEpoch a)

/-- The loss histories the run starts from (the resumed checkpoint's, or
empty). -/
def startHists (a : RunArgs) : List ℚ × List ℚ :=
  match a.resume with
  | some (_, tl, vl) => (tl, vl)
  | none => ([], [])

/-- Embedding of `run_epochs()` as the trace of its disk writes.  In
predict mode the function returns at once, before the writer, the loop and
the test pass; otherwise the epoch loop runs with `best_val_f1 = 0` and the
final test pass always follows. -/
def runEpochs (a : RunArgs) (trainLossF valLossF : Nat → ℚ)
    (valF1 : Nat → Fin 8 → ℚ) : List RunEffect :=
  if a.predict then []
  else
    let s := (epochList a).foldl (stepEpoch a trainLossF valLossF valF1)
      { best := 0, tl := (startHists a).1, vl := (startHists a).2, effs := [] }
    s.effs ++ [RunEffect.testEvalRun, RunEffect.testMetricsWrite]

/-- The best validation macro-F1 the loop has seen strictly before epoch
`e`, starting from the initial `best_val_f1 = 0`. -/
def bestBefore (a : RunArgs) (valF1 : Nat → Fin 8 → ℚ) (e : Nat) : ℚ :=
  ((List.range' (startEpoch a) (e - startEpoch a)).map (macroOf valF1)).foldl max 0

/-- The effect list the epoch loop emits, written as a recursion over the
epoch list (proof form of the loop; shown below to agree with the fold). -/
def runBlocks (a : RunArgs) (tf vf : Nat → ℚ) (vF1 : Nat → Fin 8 → ℚ) :
    ℚ → List ℚ → List ℚ → List Nat → List RunEffect
  | _, _, _, [] => []
  | best, tl, vl, e :: es =>
    if ¬ a.debug ∧ macroOf vF1 e > best then
      RunEffect.checkpointWrite e (tl ++ [tf e]) (vl ++ [vf e])
        :: RunEffect.trainMetricsWrite e
        :: RunEffect.valMetricsWrite e
        :: RunEffect.predDump e
        :: runBlocks a tf vf vF1 (macroOf vF1 e) (tl ++ [tf e]) (vl ++ [vf e]) es
    else runBlocks a tf vf vF1 best (tl ++ [tf e]) (vl ++ [vf e]) es

/-!  ## The dataset adapter (loader.py, class Data, lines 16-50) -/

/-- Column sum of a label matrix at class `j` (`np.sum(y, axis=0)[j]`). -/
def colSum (rows : List LabelRow) (j : Fin 8) : ℚ :=
  (rows.map (fun r => r j)).sum

/-- Sum of all entries of a label matrix (`np.sum(y)`). -/
def totalSum (rows : List LabelRow) : ℚ :=
  (rows.map (fun r => ∑ j, r j)).sum

/-- The class-proportion vector of a label matrix. -/
def propOfRows (rows : List LabelRow) (j : Fin 8) : ℚ :=
  colSum rows j / totalSum rows

/-- The state of a `Data` object after `__init__`. -/
structure DataD where
  name : String
  proportion : Fin 8 → ℚ
  X : List Document
  y : List LabelRow

/-- The (document, label-row) pairs `Data.__init__` retains: those whose
document has a non-empty note list (`x.shape[0] > 0`). -/
def dataKept (X0 : List Document) (y0 : List LabelRow) : List (Document × LabelRow) :=
  (X0.zip y0).filter (fun q => 0 < q.1.length)

/-- Embedding of `Data.__init__`: the proportion vector is computed from the
full loaded label matrix `y0`, then the documents with an empty note list
are dropped (keeping the label rows aligned). -/
def dataInit (name : String) (X0 : List Document) (y0 : List LabelRow) : DataD :=
  { name := name
  , proportion := propOfRows y0
  , X := (dataKept X0 y0).map Prod.fst
  , y := (dataKept X0 y0).map Prod.snd }

/-- `Data.__len__`. -/
def DataD.len (d : DataD) : Nat := d.X.length

/-- `Data.__getitem__`. -/
def DataD.item (d : DataD) (i : Nat) : Document × LabelRow :=
  (d.X.getD i [], d.y.getD i (fun _ => 0))

/-!  ## Startup dispatch (main.py, init, lines 35-43, and the main block)

`init()` checks `args.model` first: any value other than "HAN" prints a
message and calls `sys.exit(0)`, which ends the process before the model is
constructed; only on "HAN" does the `HAN(...)` constructor run, and only
after `init()` returns does the main block load the data and start the
optimizer and the epoch loop. -/

/-- The observable startup events of the process. -/
inductive StartupEvent where
  | modelConstructed
  | exited (code : Nat)
  | dataLoaded
  | trainingStarted
deriving DecidableEq

/-- Embedding of `init()`: the events it emits and whether it returned
(rather than ended the process). -/
def initRun (modelArg : String) : List StartupEvent × Bool :=
  if modelArg = "HAN" then ([StartupEvent.modelConstructed], true)
  else ([StartupEvent.exited 0], false)

/-- Embedding of the main block: `init()`, then `data_loader()`, then the
optimizer and `run_epochs()`; nothing after an exit inside `init()`. -/
def mainRun (modelArg : String) : List StartupEvent :=
  let r := initRun modelArg
  if r.2 then r.1 ++ [StartupEvent.dataLoaded, StartupEvent.trainingStarted]
  else r.1

/-!  ## Concrete sample inputs used by counterexamples and witnesses -/

/-- An all-zero label row. -/
def zeroRow : LabelRow := fun _ => 0

/-- A logit row whose every entry is 3/10 (a positive logit below 1/2). -/
def logitRow : LabelRow := fun _ => 3/10

/-- A one-note document. -/
def docA : Document := [[1, 2, 3]]

/-- A two-note document. -/
def docB : Document := [[1, 2], [1, 2, 3, 4]]

/-- A two-note document whose second note is empty. -/
def docC : Document := [[1, 2, 3], []]

/-- A metric vector with every class at 1. -/
def onesV : Fin 8 → ℚ := fun _ => 1

/-- A uniform class-proportion vector. -/
def eighthV : Fin 8 → ℚ := fun _ => 1/8

/-- Label row flagging only class 0. -/
def e0Row : LabelRow := fun j => if j = 0 then 1 else 0

/-- Label row flagging only class 1. -/
def e1Row : LabelRow := fun j => if j = 1 then 1 else 0

/-- A loaded document list whose first document has no notes. -/
def sampleX0 : List Document := [[], [[1]]]

/-- The label matrix going with `sampleX0`. -/
def sampleY0 : List LabelRow := [e0Row, e1Row]

/-- A plain non-debug, non-predict, non-resume two-epoch configuration. -/
def sampleArgs : RunArgs :=
  { predict := false, debug := false, resume := none, epochMax := 2 }

/-- A per-epoch validation F1 profile: epoch 0 scores 1/2, later epochs 1/2
again (no strict improvement at epoch 1). -/
def sampleF1 : Nat → Fin 8 → ℚ := fun _ _ => 1/2

/-- A constant per-epoch loss profile. -/
def sampleLoss : Nat → ℚ := fun _ => 1

/-!  ## Lemmas about the validate loop -/

theorem vFoldl_runningLoss (lossOf : List LabelRow → List LabelRow → ℚ) :
    ∀ (es : List ValBatch) (s : VState),
      (es.foldl (vstep lossOf) s).runningLoss = s.runningLoss + sumLoss lossOf es := by
  intro es
  induction es with
  | nil => intro s; simp [sumLoss]
  | cons b t ih =>
      intro s
      rw [List.foldl_cons, ih]
      simp [vstep, sumLoss]
      ring

theorem vFoldl_correct (lossOf : List LabelRow → List LabelRow → ℚ) :
    ∀ (es : List ValBatch) (s : VState),
      (es.foldl (vstep lossOf) s).correctPredictions
        = s.correctPredictions + totalCorrect es := by
  intro es
  induction es with
  | nil => intro s; simp [totalCorrect]
  | cons b t ih =>
      intro s
      rw [List.foldl_cons, ih]
      simp [vstep, totalCorrect]
      ring

theorem vFoldl_total (lossOf : List LabelRow → List LabelRow → ℚ) :
    ∀ (es : List ValBatch) (s : VState),
      (es.foldl (vstep lossOf) s).totalPredictions
        = s.totalPredictions + totalSamples es * 8 := by
  intro es
  induction es with
  | nil => intro s; simp [totalSamples]
  | cons b t ih =>
      intro s
      rw [List.foldl_cons, ih]
      simp [vstep, totalSamples]
      ring

theorem vFoldl_lastY (lossOf : List LabelRow → List LabelRow → ℚ) :
    ∀ (l : List ValBatch) (b : ValBatch) (s : VState),
      ((l ++ [b]).foldl (vstep lossOf) s).lastY = b.y := by
  intro l
  induction l with
  | nil => intro b s; simp [vstep]
  | cons x t ih => intro b s; rw [List.cons_append, List.foldl_cons]; exact ih b _

theorem vFoldl_lastPred (lossOf : List LabelRow → List LabelRow → ℚ) :
    ∀ (l : List ValBatch) (b : ValBatch) (s : VState),
      ((l ++ [b]).foldl (vstep lossOf) s).lastPred = predOf b.out := by
  intro l
  induction l with
  | nil => intro b s; simp [vstep]
  | cons x t ih => intro b s; rw [List.cons_append, List.foldl_cons]; exact ih b _

theorem validateRun_append (lossOf : List LabelRow → List LabelRow → ℚ)
    (valLen : Nat) (l : List ValBatch) (b : ValBatch) :
    validateRun lossOf valLen (l ++ [b])
      = some (vOut valLen (vFold lossOf (l ++ [b]))) := by
  have h : (l ++ [b]).isEmpty = false := by cases l <;> simp
  simp [validateRun, h]

/-- C5: on a loader with at least one batch, the precision/recall/F1 vectors
returned by the VALIDATE/TEST pass are computed, once at the end, from the
labels and thresholded predictions of the last batch only, while the
returned accuracy aggregates all batches: the total number of correctly
predicted label flags divided by (total sample count × 8). -/
theorem validate_metrics_from_last_batch
    (lossOf : List LabelRow → List LabelRow → ℚ) (valLen : Nat)
    (l : List ValBatch) (b : ValBatch) :
    ∃ o : VOut, validateRun lossOf valLen (l ++ [b]) = some o ∧
      (∀ i, o.p i = precAt b.y (predOf b.out) i) ∧
      (∀ i, o.r i = recAt b.y (predOf b.out) i) ∧
      (∀ i, o.f1 i = f1At b.y (predOf b.out) i) ∧
      o.acc = (totalCorrect (l ++ [b]) : ℚ)
                / ((totalSamples (l ++ [b]) * 8 : Nat) : ℚ) := by
  refine ⟨vOut valLen (vFold lossOf (l ++ [b])), validateRun_append lossOf valLen l b, ?_, ?_, ?_, ?_⟩
  · intro i
    simp only [vOut, vFold]
    rw [vFoldl_lastY, vFoldl_lastPred]
  · intro i
    simp only [vOut, vFold]
    rw [vFoldl_lastY, vFoldl_lastPred]
  · intro i
    simp only [vOut, vFold]
    rw [vFoldl_lastY, vFoldl_lastPred]
  · simp only [vOut, vFold]
    rw [vFoldl_correct, vFoldl_total]
    simp [vInit]

/-- C9: the loss returned by `validate(loader)` is the sum of the per-batch
losses over the loader it was given, divided by the number of batches of the
ambient validation loader `valLen`, whichever loader was passed — in
particular the final test pass divides the summed test losses by the
validation loader's batch count. -/
theorem validate_loss_divided_by_val_loader_len
    (lossOf : List LabelRow → List LabelRow → ℚ) (valLen : Nat)
    (l : List ValBatch) (b : ValBatch) :
    ∃ o : VOut, validateRun lossOf valLen (l ++ [b]) = some o ∧
      o.loss = sumLoss lossOf (l ++ [b]) / (valLen : ℚ) := by
  refine ⟨vOut valLen (vFold lossOf (l ++ [b])), validateRun_append lossOf valLen l b, ?_⟩
  simp only [vOut, vFold]
  rw [vFoldl_runningLoss]
  simp [vInit]

/-- C1 (code bug): the program thresholds the raw logits at 0.5, not at 0:
on a batch of one sample whose every logit is 3/10 — a positive logit, i.e.
a sigmoid probability above 0.5 — the program predicts every flag 0, while
the spec's boundary-0 thresholding predicts every flag 1. -/
theorem pred_thresholds_logits_at_half :
    predOf [logitRow] = [fun _ => 0]
    ∧ predThresholdZeroSpec [logitRow] = [fun _ => 1]
    ∧ predOf [logitRow] ≠ predThresholdZeroSpec [logitRow]
    ∧ logitRow 0 > 0 := by
  have h0 : predOf [logitRow] = [fun _ => 0] := by
    simp only [predOf, logitRow, List.map]
    norm_num
  have h1 : predThresholdZeroSpec [logitRow] = [fun _ => 1] := by
    simp only [predThresholdZeroSpec, logitRow, List.map]
    norm_num
  refine ⟨h0, h1, ?_, by norm_num [logitRow]⟩
  rw [h0, h1]
  intro h
  have h2 : ((fun _ => (0:ℚ)) : LabelRow) = fun _ => 1 := by simpa using h
  have h3 := congrFun h2 0
  norm_num at h3

/-- C2 (code bug): a predict-only run returns from run_epochs at once: its
effect trace is empty, so in particular no test-split evaluation runs and no
test metrics CSV is written. -/
theorem predict_mode_produces_nothing (d : Bool)
    (r : Option (Nat × List ℚ × List ℚ)) (m : Nat)
    (tf vf : Nat → ℚ) (vF1 : Nat → Fin 8 → ℚ) :
    runEpochs ⟨true, d, r, m⟩ tf vf vF1 = []
    ∧ RunEffect.testEvalRun ∉ runEpochs ⟨true, d, r, m⟩ tf vf vF1
    ∧ RunEffect.testMetricsWrite ∉ runEpochs ⟨true, d, r, m⟩ tf vf vF1 := by
  have h : runEpochs ⟨true, d, r, m⟩ tf vf vF1 = [] := by
    simp [runEpochs]
  refine ⟨h, ?_, ?_⟩ <;> rw [h] <;> simp

/-- C8: any architecture selector other than "HAN" makes init() end the
process at once (sys.exit(0)): the run trace is just the exit event — no
model is constructed, no data is loaded and no training starts. -/
theorem non_han_exits_immediately (modelArg : String) (h : modelArg ≠ "HAN") :
    mainRun modelArg = [StartupEvent.exited 0]
    ∧ StartupEvent.modelConstructed ∉ mainRun modelArg
    ∧ StartupEvent.dataLoaded ∉ mainRun modelArg
    ∧ StartupEvent.trainingStarted ∉ mainRun modelArg := by
  have h1 : mainRun modelArg = [StartupEvent.exited 0] := by
    simp [mainRun, initRun, h]
  refine ⟨h1, ?_, ?_, ?_⟩ <;> rw [h1] <;> simp

/-- Witness for C8 at the concrete selector "CNN". -/
theorem non_han_exits_immediately_witness :
    ("CNN" : String) ≠ "HAN"
    ∧ (mainRun "CNN" = [StartupEvent.exited 0]
       ∧ StartupEvent.modelConstructed ∉ mainRun "CNN"
       ∧ StartupEvent.dataLoaded ∉ mainRun "CNN"
       ∧ StartupEvent.trainingStarted ∉ mainRun "CNN") :=
  ⟨by decide, non_han_exits_immediately "CNN" (by decide)⟩

/-- C4 (counterexample): with every per-class metric equal to 1 and the
uniform proportion vector, the claim's proportion-weighted sum is 1 (and
stays 1 after rounding), but the micro_avg cell the program writes is 1/8. -/
theorem micro_avg_counterexample :
    (evaluateTable onesV onesV onesV eighthV).microAvg.p = 1/8
    ∧ round3 (microAvgSpec onesV eighthV) = 1
    ∧ (evaluateTable onesV onesV onesV eighthV).microAvg.p
        ≠ round3 (microAvgSpec onesV eighthV) := by
  have h1 : (evaluateTable onesV onesV onesV eighthV).microAvg.p = 1/8 := by
    simp [evaluateTable, onesV, eighthV, Fin.sum_univ_succ]
    norm_num [round3, roundHalfEven]
  have h2 : round3 (microAvgSpec onesV eighthV) = 1 := by
    simp [microAvgSpec, onesV, eighthV, Fin.sum_univ_succ]
    norm_num [round3, roundHalfEven]
  refine ⟨h1, h2, ?_⟩
  rw [h1, h2]
  norm_num

/-- C4 (amended): in every metrics table the program writes, each micro_avg
entry is the unweighted mean over the 8 classes of (per-class metric ×
class proportion) — the spec's proportion-weighted sum divided by 8 — the
macro_avg entries are the unweighted means of the per-class metrics, and
each per-class row carries the metrics themselves, all rounded to 3
decimals. -/
theorem micro_avg_is_mean_of_weighted (p r f1 prop : Fin 8 → ℚ) :
    (evaluateTable p r f1 prop).microAvg
        = ⟨round3 (microAvgSpec p prop / 8), round3 (microAvgSpec r prop / 8),
           round3 (microAvgSpec f1 prop / 8)⟩
    ∧ (evaluateTable p r f1 prop).macroAvg
        = ⟨round3 ((∑ i, p i) / 8), round3 ((∑ i, r i) / 8),
           round3 ((∑ i, f1 i) / 8)⟩
    ∧ ∀ i, (evaluateTable p r f1 prop).perClass i
        = ⟨round3 (p i), round3 (r i), round3 (f1 i)⟩ :=
  ⟨rfl, rfl, fun _ => rfl⟩

/-!  ## Lemmas about the dataset adapter -/

theorem dataKept_length : ∀ (X0 : List Document) (y0 : List LabelRow),
    X0.length = y0.length →
    (dataKept X0 y0).length = (X0.filter (fun x => 0 < x.length)).length := by
  intro X0
  induction X0 with
  | nil => intro y0 _; simp [dataKept]
  | cons x xs ih =>
      intro y0 h
      cases y0 with
      | nil => simp at h
      | cons y ys =>
          have h' : xs.length = ys.length := by simpa using h
          by_cases hx : 0 < x.length
          · simpa [dataKept, List.filter_cons, hx] using ih ys h'
          · simpa [dataKept, List.filter_cons, hx] using ih ys h'

theorem sum_colSum : ∀ rows : List LabelRow, (∑ j, colSum rows j) = totalSum rows := by
  intro rows
  induction rows with
  | nil => simp [colSum, totalSum]
  | cons r t ih =>
      simp only [colSum, totalSum, List.map_cons, List.sum_cons] at *
      rw [Finset.sum_add_distrib, ih]

/-- C7: for every split, the adapter keeps exactly the loaded documents with
a non-empty note list: its length is the number of loaded documents with at
least one note, and every item it exposes below that length carries a
document with at least one note (so zero-note documents never reach a
batch). -/
theorem data_keeps_exactly_nonempty_documents (n : String) (X0 : List Document)
    (y0 : List LabelRow) (hlen : X0.length = y0.length) :
    (dataInit n X0 y0).len = (X0.filter (fun x => 0 < x.length)).length
    ∧ ∀ i, (hi : i < (dataInit n X0 y0).len) →
        0 < ((dataInit n X0 y0).item i).1.length := by
  constructor
  · simp only [dataInit, DataD.len, List.length_map]
    exact dataKept_length X0 y0 hlen
  · intro i hi
    have hall : ∀ z ∈ (dataKept X0 y0).map Prod.fst, 0 < z.length := by
      intro z hz
      obtain ⟨q, hq, hq2⟩ := List.mem_map.1 hz
      have hp := (List.mem_filter.1 hq).2
      rw [← hq2]
      simpa using hp
    have hi' : i < ((dataKept X0 y0).map Prod.fst).length := by
      simpa [dataInit, DataD.len] using hi
    simp only [dataInit, DataD.item]
    rw [List.getD_eq_getElem _ _ hi']
    exact hall _ (List.getElem_mem hi')

/-- Witness for C7 on a concrete two-document load whose first document has
no notes. -/
theorem data_keeps_exactly_nonempty_documents_witness :
    sampleX0.length = sampleY0.length
    ∧ ((dataInit "train" sampleX0 sampleY0).len
          = (sampleX0.filter (fun x => 0 < x.length)).length
       ∧ ∀ i, (hi : i < (dataInit "train" sampleX0 sampleY0).len) →
          0 < ((dataInit "train" sampleX0 sampleY0).item i).1.length) :=
  ⟨by decide,
   data_keeps_exactly_nonempty_documents "train" sampleX0 sampleY0 (by decide)⟩

/-- C10: the class-proportion vector of a split is computed from the full
loaded label matrix, before zero-note documents are dropped: each entry is
that class's column sum over the whole matrix divided by the matrix's total
positive count, the entries sum to 1 whenever the total is non-zero, and
there is a load on which the vector differs from the proportions of the
retained label rows. -/
theorem proportion_computed_before_filtering (n : String) (X0 : List Document)
    (y0 : List LabelRow) (htot : totalSum y0 ≠ 0) :
    (∀ j, (dataInit n X0 y0).proportion j = colSum y0 j / totalSum y0)
    ∧ (∑ j, (dataInit n X0 y0).proportion j) = 1
    ∧ ∃ (X1 : List Document) (y1 : List LabelRow) (j : Fin 8),
        (dataInit n X1 y1).proportion j
          ≠ propOfRows (dataInit n X1 y1).y j := by
  refine ⟨fun j => rfl, ?_, ?_⟩
  · simp only [dataInit, propOfRows]
    rw [← Finset.sum_div, sum_colSum, div_self htot]
  · refine ⟨sampleX0, sampleY0, 0, ?_⟩
    have h1 : (dataInit n sampleX0 sampleY0).proportion 0 = 1/2 := by
      simp [dataInit, propOfRows, colSum, totalSum, sampleY0, e0Row, e1Row,
        Fin.sum_univ_eight]
      norm_num
    have h2 : propOfRows (dataInit n sampleX0 sampleY0).y 0 = 0 := by
      simp [dataInit, dataKept, sampleX0, sampleY0, propOfRows, colSum, totalSum,
        e0Row, e1Row, Fin.sum_univ_eight]
    rw [h1, h2]
    norm_num

/-- Witness for C10 on the concrete load `sampleX0`/`sampleY0`. -/
theorem proportion_computed_before_filtering_witness :
    totalSum sampleY0 ≠ 0
    ∧ ((∀ j, (dataInit "train" sampleX0 sampleY0).proportion j
          = colSum sampleY0 j / totalSum sampleY0)
       ∧ (∑ j, (dataInit "train" sampleX0 sampleY0).proportion j) = 1
       ∧ ∃ (X1 : List Document) (y1 : List LabelRow) (j : Fin 8),
          (dataInit "train" X1 y1).proportion j
            ≠ propOfRows (dataInit "train" X1 y1).y j) := by
  have htot : totalSum sampleY0 ≠ 0 := by
    simp [totalSum, sampleY0, e0Row, e1Row, Fin.sum_univ_eight]
  exact ⟨htot, proportion_computed_before_filtering "train" sampleX0 sampleY0 htot⟩

/-!  ## Lemmas about the collator -/

theorem foldl_max_bounds : ∀ (l : List Nat) (a : Nat),
    (∀ x ∈ l, x ≤ l.foldl max a) ∧ a ≤ l.foldl max a := by
  intro l
  induction l with
  | nil => intro a; exact ⟨fun x hx => absurd hx (List.not_mem_nil x), Nat.le_refl a⟩
  | cons x t ih =>
      intro a
      refine ⟨?_, ?_⟩
      · intro z hz
        rcases List.mem_cons.1 hz with h | h
        · subst h
          exact le_trans (le_max_right a z) (ih (max a z)).2
        · exact (ih (max a x)).1 z h
      · exact le_trans (le_max_left a x) (ih (max a x)).2

theorem note_le_maxWordsAt (docs : List Document) (j : Nat) :
    ∀ doc ∈ docs, (doc.getD j []).length ≤ maxWordsAt docs j := by
  intro doc hd
  exact (foldl_max_bounds _ 0).1 _ (List.mem_map_of_mem _ hd)

theorem padTo_length (w : Nat) (xs : List Nat) (h : xs.length ≤ w) :
    (padTo w xs).length = w := by
  simp [padTo, Nat.add_sub_cancel' h]

/-- C3 (counterexample): a two-document batch whose documents have one and
two notes respectively makes the collator fail — `np.array` cannot form the
(batch, notes) array, so the shape unpacking raises — rather than fill the
missing note-position with a placeholder note and return padded tensors. -/
theorem collate_ragged_batch_counterexample :
    docA.length ≠ docB.length
    ∧ collate [(docA, zeroRow), (docB, zeroRow)] = none :=
  ⟨by decide, rfl⟩

/-- C3 (amended): the collator requires every document of a batch to carry
the same number of note cells (shorter documents must already hold empty
placeholder notes in their trailing cells); on such a batch it returns one
padded word-index tensor per note-position j of shape batch_size × (max
word-count among the notes at position j across the batch), where the row
of a document whose note at position j is empty is entirely padding.  A
batch whose documents have genuinely differing note-cell counts is not
collated but fails. -/
theorem collate_uniform_batches (batch : List (Document × LabelRow))
    (d : Document) (ds : List Document)
    (hb : batch.map Prod.fst = d :: ds)
    (hu : ∀ x ∈ ds, x.length = d.length) :
    ∃ Xs wn, collate batch = some (Xs, wn, batch.map Prod.snd)
    ∧ Xs.length = d.length
    ∧ ∀ j, (hj : j < d.length) →
        (Xs.getD j []).length = batch.length
        ∧ (∀ row ∈ Xs.getD j [], row.length = maxWordsAt (d :: ds) j)
        ∧ (∀ i, (hi : i < (d :: ds).length) →
            (Xs.getD j []).getD i []
              = padTo (maxWordsAt (d :: ds) j) (((d :: ds).getD i []).getD j []))
        ∧ (∀ i, (hi : i < (d :: ds).length) →
            ((d :: ds).getD i []).getD j [] = [] →
            (Xs.getD j []).getD i [] = List.replicate (maxWordsAt (d :: ds) j) 0) := by
  have hall : ((d :: ds).all (fun x => x.length = d.length)) = true := by
    simp only [List.all_eq_true]
    intro x hx
    rcases List.mem_cons.1 hx with h | h
    · subst h; simp
    · simp [hu x h]
  have hc : collate batch
      = some ((List.range d.length).map (fun j =>
                (d :: ds).map (fun doc => padTo (maxWordsAt (d :: ds) j) (doc.getD j []))),
              (d :: ds).map (fun doc => (List.range d.length).map
                (fun j => (doc.getD j []).length)),
              batch.map Prod.snd) := by
    rw [collate, hb]
    simp [hall]
  refine ⟨_, _, hc, by simp, ?_⟩
  intro j hj
  have hjr : j < (List.range d.length).length := by simpa using hj
  have hXj : ((List.range d.length).map (fun j =>
      (d :: ds).map (fun doc => padTo (maxWordsAt (d :: ds) j) (doc.getD j [])))).getD j []
      = (d :: ds).map (fun doc => padTo (maxWordsAt (d :: ds) j) (doc.getD j [])) := by
    rw [List.getD_eq_getElem _ _ (by simpa using hjr)]
    simp
  rw [hXj]
  have hblen : batch.length = (d :: ds).length := by
    rw [← hb, List.length_map]
  refine ⟨by simp [hblen], ?_, ?_, ?_⟩
  · intro row hrow
    obtain ⟨doc, hdoc, hrow2⟩ := List.mem_map.1 hrow
    rw [← hrow2]
    exact padTo_length _ _ (note_le_maxWordsAt (d :: ds) j doc hdoc)
  · intro i hi
    have hi2 : i < ((d :: ds).map
        (fun doc => padTo (maxWordsAt (d :: ds) j) (doc.getD j []))).length := by
      simpa using hi
    rw [List.getD_eq_getElem _ _ hi2, List.getElem_map]
    rw [List.getD_eq_getElem _ _ hi]
  · intro i hi hempty
    have hi2 : i < ((d :: ds).map
        (fun doc => padTo (maxWordsAt (d :: ds) j) (doc.getD j []))).length := by
      simpa using hi
    rw [List.getD_eq_getElem _ _ hi2, List.getElem_map]
    rw [List.getD_eq_getElem _ _ hi] at hempty
    rw [hempty]
    simp [padTo]

/-- Witness for C3 (amended) on a concrete uniform batch: two documents of
two note cells each, the first document's second note empty. -/
theorem collate_uniform_batches_witness :
    ([(docC, zeroRow), (docB, zeroRow)].map Prod.fst = docC :: [docB])
    ∧ (∀ x ∈ [docB], x.length = docC.length)
    ∧ (∃ Xs wn, collate [(docC, zeroRow), (docB, zeroRow)]
        = some (Xs, wn, [(docC, zeroRow), (docB, zeroRow)].map Prod.snd)) := by
  refine ⟨rfl, by decide, ?_⟩
  obtain ⟨Xs, wn, h1, _⟩ :=
    collate_uniform_batches [(docC, zeroRow), (docB, zeroRow)] docC [docB] rfl (by decide)
  exact ⟨Xs, wn, h1⟩

/-!  ## Lemmas about the epoch loop -/

theorem runFold_effs (a : RunArgs) (tf vf : Nat → ℚ) (vF1 : Nat → Fin 8 → ℚ) :
    ∀ (es : List Nat) (s : RunState),
      (es.foldl (stepEpoch a tf vf vF1) s).effs
        = s.effs ++ runBlocks a tf vf vF1 s.best s.tl s.vl es := by
  intro es
  induction es with
  | nil => intro s; simp [runBlocks]
  | cons x xs ih =>
      intro s
      rw [List.foldl_cons, ih]
      by_cases hc : ¬ a.debug ∧ macroOf vF1 x > s.best
      · simp only [stepEpoch, runBlocks, if_pos hc]
        simp
      · simp only [stepEpoch, runBlocks, if_neg hc]

theorem runBlocks_epochs (a : RunArgs) (tf vf : Nat → ℚ) (vF1 : Nat → Fin 8 → ℚ) :
    ∀ (es : List Nat) (best : ℚ) (tl vl : List ℚ),
      (∀ e tl2 vl2, RunEffect.checkpointWrite e tl2 vl2
          ∈ runBlocks a tf vf vF1 best tl vl es → e ∈ es)
      ∧ (∀ e, RunEffect.trainMetricsWrite e ∈ runBlocks a tf vf vF1 best tl vl es → e ∈ es)
      ∧ (∀ e, RunEffect.valMetricsWrite e ∈ runBlocks a tf vf vF1 best tl vl es → e ∈ es)
      ∧ (∀ e, RunEffect.predDump e ∈ runBlocks a tf vf vF1 best tl vl es → e ∈ es) := by
  intro es
  induction es with
  | nil => intro best tl vl; simp [runBlocks]
  | cons x xs ih =>
      intro best tl vl
      by_cases hc : ¬ a.debug ∧ macroOf vF1 x > best
      · obtain ⟨ih1, ih2, ih3, ih4⟩ := ih (macroOf vF1 x) (tl ++ [tf x]) (vl ++ [vf x])
        refine ⟨?_, ?_, ?_, ?_⟩
        · intro e tl2 vl2 hm
          simp only [runBlocks, if_pos hc, List.mem_cons] at hm
          rcases hm with h | h | h | h | h
          · injection h with h1 h2 h3
            rw [h1]
            exact List.mem_cons_self x xs
          · exact RunEffect.noConfusion h
          · exact RunEffect.noConfusion h
          · exact RunEffect.noConfusion h
          · exact List.mem_cons_of_mem x (ih1 e tl2 vl2 h)
        · intro e hm
          simp only [runBlocks, if_pos hc, List.mem_cons] at hm
          rcases hm with h | h | h | h | h
          · exact RunEffect.noConfusion h
          · injection h with h1
            rw [h1]
            exact List.mem_cons_self x xs
          · exact RunEffect.noConfusion h
          · exact RunEffect.noConfusion h
          · exact List.mem_cons_of_mem x (ih2 e h)
        · intro e hm
          simp only [runBlocks, if_pos hc, List.mem_cons] at hm
          rcases hm with h | h | h | h | h
          · exact RunEffect.noConfusion h
          · exact RunEffect.noConfusion h
          · injection h with h1
            rw [h1]
            exact List.mem_cons_self x xs
          · exact RunEffect.noConfusion h
          · exact List.mem_cons_of_mem x (ih3 e h)
        · intro e hm
          simp only [runBlocks, if_pos hc, List.mem_cons] at hm
          rcases hm with h | h | h | h | h
          · exact RunEffect.noConfusion h
          · exact RunEffect.noConfusion h
          · exact RunEffect.noConfusion h
          · injection h with h1
            rw [h1]
            exact List.mem_cons_self x xs
          · exact List.mem_cons_of_mem x (ih4 e h)
      · obtain ⟨ih1, ih2, ih3, ih4⟩ := ih best (tl ++ [tf x]) (vl ++ [vf x])
        refine ⟨?_, ?_, ?_, ?_⟩
        · intro e tl2 vl2 hm
          simp only [runBlocks, if_neg hc] at hm
          exact List.mem_cons_of_mem x (ih1 e tl2 vl2 hm)
        · intro e hm
          simp only [runBlocks, if_neg hc] at hm
          exact List.mem_cons_of_mem x (ih2 e hm)
        · intro e hm
          simp only [runBlocks, if_neg hc] at hm
          exact List.mem_cons_of_mem x (ih3 e hm)
        · intro e hm
          simp only [runBlocks, if_neg hc] at hm
          exact List.mem_cons_of_mem x (ih4 e hm)

theorem mem_runBlocks (a : RunArgs) (tf vf : Nat → ℚ) (vF1 : Nat → Fin 8 → ℚ)
    (hd : a.debug = false) :
    ∀ (pre : List Nat) (e : Nat) (post : List Nat) (best : ℚ) (tl vl : List ℚ),
      e ∉ pre → e ∉ post →
      (((∃ tl2 vl2, RunEffect.checkpointWrite e tl2 vl2
            ∈ runBlocks a tf vf vF1 best tl vl (pre ++ e :: post))
          ↔ macroOf vF1 e > (pre.map (macroOf vF1)).foldl max best)
       ∧ (RunEffect.trainMetricsWrite e ∈ runBlocks a tf vf vF1 best tl vl (pre ++ e :: post)
          ↔ macroOf vF1 e > (pre.map (macroOf vF1)).foldl max best)
       ∧ (RunEffect.valMetricsWrite e ∈ runBlocks a tf vf vF1 best tl vl (pre ++ e :: post)
          ↔ macroOf vF1 e > (pre.map (macroOf vF1)).foldl max best)
       ∧ (RunEffect.predDump e ∈ runBlocks a tf vf vF1 best tl vl (pre ++ e :: post)
          ↔ macroOf vF1 e > (pre.map (macroOf vF1)).foldl max best)) := by
  intro pre
  induction pre with
  | nil =>
      intro e post best tl vl _ hpost
      simp only [List.nil_append, List.map_nil, List.foldl_nil]
      by_cases hgt : macroOf vF1 e > best
      · have hc : ¬ a.debug ∧ macroOf vF1 e > best := ⟨by simp [hd], hgt⟩
        simp only [runBlocks, if_pos hc]
        refine ⟨?_, ?_, ?_, ?_⟩
        · exact ⟨fun _ => hgt,
            fun _ => ⟨tl ++ [tf e], vl ++ [vf e], List.mem_cons_self _ _⟩⟩
        · exact ⟨fun _ => hgt,
            fun _ => List.mem_cons_of_mem _ (List.mem_cons_self _ _)⟩
        · exact ⟨fun _ => hgt,
            fun _ => List.mem_cons_of_mem _ (List.mem_cons_of_mem _ (List.mem_cons_self _ _))⟩
        · exact ⟨fun _ => hgt,
            fun _ => List.mem_cons_of_mem _ (List.mem_cons_of_mem _
              (List.mem_cons_of_mem _ (List.mem_cons_self _ _)))⟩
      · have hc : ¬(¬ a.debug ∧ macroOf vF1 e > best) := fun h => hgt h.2
        simp only [runBlocks, if_neg hc]
        obtain ⟨p1, p2, p3, p4⟩ :=
          runBlocks_epochs a tf vf vF1 post best (tl ++ [tf e]) (vl ++ [vf e])
        refine ⟨?_, ?_, ?_, ?_⟩
        · exact ⟨fun ⟨tl2, vl2, hm⟩ => absurd (p1 e tl2 vl2 hm) hpost,
            fun h => absurd h hgt⟩
        · exact ⟨fun hm => absurd (p2 e hm) hpost, fun h => absurd h hgt⟩
        · exact ⟨fun hm => absurd (p3 e hm) hpost, fun h => absurd h hgt⟩
        · exact ⟨fun hm => absurd (p4 e hm) hpost, fun h => absurd h hgt⟩
  | cons x pre' ih =>
      intro e post best tl vl hpre hpost
      have hne : e ≠ x := fun h => hpre (by rw [h]; exact List.mem_cons_self x pre')
      have hpre' : e ∉ pre' := fun h => hpre (List.mem_cons_of_mem x h)
      simp only [List.cons_append, List.map_cons, List.foldl_cons]
      by_cases hgx : macroOf vF1 x > best
      · have hc : ¬ a.debug ∧ macroOf vF1 x > best := ⟨by simp [hd], hgx⟩
        simp only [runBlocks, if_pos hc]
        rw [max_eq_right (le_of_lt hgx)]
        obtain ⟨ih1, ih2, ih3, ih4⟩ :=
          ih e post (macroOf vF1 x) (tl ++ [tf x]) (vl ++ [vf x]) hpre' hpost
        refine ⟨?_, ?_, ?_, ?_⟩
        · rw [← ih1]
          constructor
          · rintro ⟨tl2, vl2, hm⟩
            simp only [List.mem_cons] at hm
            rcases hm with h | h | h | h | h
            · exfalso; injection h with h1 h2 h3; exact hne h1
            · exact RunEffect.noConfusion h
            · exact RunEffect.noConfusion h
            · exact RunEffect.noConfusion h
            · exact ⟨tl2, vl2, h⟩
          · rintro ⟨tl2, vl2, hm⟩
            refine ⟨tl2, vl2, ?_⟩
            simp only [List.mem_cons]
            exact Or.inr (Or.inr (Or.inr (Or.inr hm)))
        · rw [← ih2]
          constructor
          · intro hm
            simp only [List.mem_cons] at hm
            rcases hm with h | h | h | h | h
            · exact RunEffect.noConfusion h
            · exfalso; injection h with h1; exact hne h1
            · exact RunEffect.noConfusion h
            · exact RunEffect.noConfusion h
            · exact h
          · intro hm
            simp only [List.mem_cons]
            exact Or.inr (Or.inr (Or.inr (Or.inr hm)))
        · rw [← ih3]
          constructor
          · intro hm
            simp only [List.mem_cons] at hm
            rcases hm with h | h | h | h | h
            · exact RunEffect.noConfusion h
            · exact RunEffect.noConfusion h
            · exfalso; injection h with h1; exact hne h1
            · exact RunEffect.noConfusion h
            · exact h
          · intro hm
            simp only [List.mem_cons]
            exact Or.inr (Or.inr (Or.inr (Or.inr hm)))
        · rw [← ih4]
          constructor
          · intro hm
            simp only [List.mem_cons] at hm
            rcases hm with h | h | h | h | h
            · exact RunEffect.noConfusion h
            · exact RunEffect.noConfusion h
            · exact RunEffect.noConfusion h
            · exfalso; injection h with h1; exact hne h1
            · exact h
          · intro hm
            simp only [List.mem_cons]
            exact Or.inr (Or.inr (Or.inr (Or.inr hm)))
      · have hc : ¬(¬ a.debug ∧ macroOf vF1 x > best) := fun h => hgx h.2
        simp only [runBlocks, if_neg hc]
        rw [max_eq_left (not_lt.1 hgx)]
        exact ih e post best (tl ++ [tf x]) (vl ++ [vf x]) hpre' hpost

/-- C6: in a non-debug, non-predict run, the checkpoint (with its epoch
index and the two loss histories), the train metrics table, the validation
metrics table and the validation prediction dump are written after an epoch
exactly when that epoch's validation macro-F1 (the unweighted mean of the 8
per-class F1 values) strictly exceeds the best macro-F1 seen so far in the
run (starting from the initial best of 0); an equal or lower macro-F1 never
triggers any of the writes. -/
theorem checkpoint_saved_iff_strict_improvement (a : RunArgs)
    (tf vf : Nat → ℚ) (vF1 : Nat → Fin 8 → ℚ)
    (hp : a.predict = false) (hd : a.debug = false)
    (e : Nat) (he : e ∈ epochList a) :
    ((∃ tl vl, RunEffect.checkpointWrite e tl vl ∈ runEpochs a tf vf vF1)
        ↔ macroOf vF1 e > bestBefore a vF1 e)
    ∧ (RunEffect.trainMetricsWrite e ∈ runEpochs a tf vf vF1
        ↔ macroOf vF1 e > bestBefore a vF1 e)
    ∧ (RunEffect.valMetricsWrite e ∈ runEpochs a tf vf vF1
        ↔ macroOf vF1 e > bestBefore a vF1 e)
    ∧ (RunEffect.predDump e ∈ runEpochs a tf vf vF1
        ↔ macroOf vF1 e > bestBefore a vF1 e) := by
  simp only [epochList] at he
  have hbounds := List.mem_range'_1.1 he
  have hse : startEpoch a ≤ e := hbounds.1
  have heb : e < epochBound a := by omega
  have hdec : epochList a
      = List.range' (startEpoch a) (e - startEpoch a)
        ++ e :: List.range' (e + 1) (epochBound a - e - 1) := by
    have h1 : epochBound a - startEpoch a
        = (epochBound a - e) + (e - startEpoch a) := by omega
    have h2 : startEpoch a + 1 * (e - startEpoch a) = e := by omega
    have h3 : epochBound a - e = (epochBound a - e - 1) + 1 := by omega
    rw [epochList, h1, ← List.range'_append, h2, h3, List.range'_succ]
    simp
  have hepre : e ∉ List.range' (startEpoch a) (e - startEpoch a) := by
    intro h
    have := List.mem_range'_1.1 h
    omega
  have hepost : e ∉ List.range' (e + 1) (epochBound a - e - 1) := by
    intro h
    have := List.mem_range'_1.1 h
    omega
  have hrun : runEpochs a tf vf vF1
      = runBlocks a tf vf vF1 0 (startHists a).1 (startHists a).2 (epochList a)
        ++ [RunEffect.testEvalRun, RunEffect.testMetricsWrite] := by
    simp only [runEpochs, hp, Bool.false_eq_true, if_false]
    rw [runFold_effs]
    rfl
  obtain ⟨m1, m2, m3, m4⟩ := mem_runBlocks a tf vf vF1 hd
    (List.range' (startEpoch a) (e - startEpoch a)) e
    (List.range' (e + 1) (epochBound a - e - 1)) 0
    (startHists a).1 (startHists a).2 hepre hepost
  refine ⟨?_, ?_, ?_, ?_⟩
  · rw [hrun, hdec]
    simp only [bestBefore]
    rw [← m1]
    constructor
    · rintro ⟨tl2, vl2, hm⟩
      rcases List.mem_append.1 hm with h | h
      · exact ⟨tl2, vl2, h⟩
      · exact absurd h (by simp)
    · rintro ⟨tl2, vl2, hm⟩
      exact ⟨tl2, vl2, List.mem_append_left _ hm⟩
  · rw [hrun, hdec]
    simp only [bestBefore]
    rw [← m2]
    constructor
    · intro hm
      rcases List.mem_append.1 hm with h | h
      · exact h
      · exact absurd h (by simp)
    · exact fun hm => List.mem_append_left _ hm
  · rw [hrun, hdec]
    simp only [bestBefore]
    rw [← m3]
    constructor
    · intro hm
      rcases List.mem_append.1 hm with h | h
      · exact h
      · exact absurd h (by simp)
    · exact fun hm => List.mem_append_left _ hm
  · rw [hrun, hdec]
    simp only [bestBefore]
    rw [← m4]
    constructor
    · intro hm
      rcases List.mem_append.1 hm with h | h
      · exact h
      · exact absurd h (by simp)
    · exact fun hm => List.mem_append_left _ hm

/-- Witness for C6 on a concrete two-epoch run whose validation macro-F1 is
1/2 at every epoch, checked at epoch 1. -/
theorem checkpoint_saved_iff_strict_improvement_witness :
    sampleArgs.predict = false ∧ sampleArgs.debug = false
    ∧ 1 ∈ epochList sampleArgs
    ∧ (((∃ tl vl, RunEffect.checkpointWrite 1 tl vl
            ∈ runEpochs sampleArgs sampleLoss sampleLoss sampleF1)
          ↔ macroOf sampleF1 1 > bestBefore sampleArgs sampleF1 1)
       ∧ (RunEffect.trainMetricsWrite 1 ∈ runEpochs sampleArgs sampleLoss sampleLoss sampleF1
          ↔ macroOf sampleF1 1 > bestBefore sampleArgs sampleF1 1)
       ∧ (RunEffect.valMetricsWrite 1 ∈ runEpochs sampleArgs sampleLoss sampleLoss sampleF1
          ↔ macroOf sampleF1 1 > bestBefore sampleArgs sampleF1 1)
       ∧ (RunEffect.predDump 1 ∈ runEpochs sampleArgs sampleLoss sampleLoss sampleF1
          ↔ macroOf sampleF1 1 > bestBefore sampleArgs sampleF1 1)) :=
  ⟨rfl, rfl, by decide,
   checkpoint_saved_iff_strict_improvement sampleArgs sampleLoss sampleLoss sampleF1
     rfl rfl 1 (by decide)⟩
